import Mathlib

/-!
Verification of the resumable batch image-URL migration client
(`sample_api.py`): a shallow embedding of its pure data operations
(URL transformer, metadata normalizer, checkpoint store, batch driver
loop) together with proofs of the specified properties.

Strings are modelled as `String` / `List Char`; Python `str.replace`,
`str.strip`, `str.split`, `in`, and `json.loads` are given executable
embeddings.  Network effects are modelled as oracles passed to the
driver (`fetch : Int → FetchResult`, `upd : Int → Int → Option String`
where `some e` is a failing PUT with error detail `e`).
-/

/-- `isPrefixC pat s` : `pat` is a prefix of `s` (on `List Char`). -/
def isPrefixC : List Char → List Char → Bool
  | [], _ => true
  | _ :: _, [] => false
  | p :: ps, c :: cs => p == c && isPrefixC ps cs

/-- Python `pat in s` for strings: `pat` occurs as a contiguous substring of `s`. -/
def containsC : List Char → List Char → Bool
  | [], pat => pat.isEmpty
  | c :: rest, pat => isPrefixC pat (c :: rest) || containsC rest pat

/-- Fuel-driven core of Python `s.replace(pat, rep)`: replaces every
non-overlapping occurrence of `pat`, scanning left to right, and does not
rescan replaced text.  The fuel only serves structural termination; with
fuel ≥ `s.length` it never runs out (the scan consumes at least one input
character per step).  The empty-pattern case (where Python interleaves
`rep` everywhere) is irrelevant here: all patterns in the program are
non-empty literals. -/
def replaceFuel : Nat → List Char → List Char → List Char → List Char
  | 0, s, _, _ => s
  | fuel + 1, s, pat, rep =>
    match s with
    | [] => []
    | c :: rest =>
      if !pat.isEmpty && isPrefixC pat (c :: rest) then
        rep ++ replaceFuel fuel (rest.drop (pat.length - 1)) pat rep
      else
        c :: replaceFuel fuel rest pat rep

/-- Python `s.replace(pat, rep)` on `List Char`. -/
def replaceC (s pat rep : List Char) : List Char :=
  replaceFuel s.length s pat rep

/-- ASCII whitespace recognized by Python `str.strip()`. -/
def isSpaceC (c : Char) : Bool :=
  c == ' ' || c == '\t' || c == '\n' || c == '\x0b' || c == '\x0c' || c == '\r'

/-- Python `s.strip()` on `List Char`. -/
def stripC (l : List Char) : List Char :=
  ((l.dropWhile isSpaceC).reverse.dropWhile isSpaceC).reverse

/-- Python `s.strip()` on `String`. -/
def stripS (s : String) : String :=
  String.mk (stripC s.data)

/-- Python `s.split(",")`: split at every comma, keeping empty pieces
(`"".split(",") == [""]`, `"a,,b".split(",") == ["a","","b"]`). -/
def splitCommaC : List Char → List (List Char)
  | [] => [[]]
  | c :: rest =>
    if c == ',' then [] :: splitCommaC rest
    else
      match splitCommaC rest with
      | [] => [[c]]
      | piece :: more => (c :: piece) :: more

/-- Python `s.split(",")` on `String`. -/
def splitCommaS (s : String) : List String :=
  (splitCommaC s.data).map String.mk

/-! ## URL transformer (`transform_image_url`, sample_api.py lines 48–53) -/

/-- The recognized host literal, `"static.recar.lt"`. -/
def recarHost : List Char := "static.recar.lt".data

/-- `OLD_IMAGE_PATH = "/images/"`. -/
def OLD_IMAGE_PATH : List Char := "/images/".data

/-- `NEW_IMAGE_PATH = "/pictures/"`. -/
def NEW_IMAGE_PATH : List Char := "/pictures/".data

/-- `OLD_EXTENSION = ".jpg"`. -/
def OLD_EXTENSION : List Char := ".jpg".data

/-- `NEW_EXTENSION = ".webp"`. -/
def NEW_EXTENSION : List Char := ".webp".data

/-- The literal `".JPG"` of the second extension replacement. -/
def UPPER_JPG : List Char := ".JPG".data

/-- Embedding of `transform_image_url` (sample_api.py lines 48–53):
```
if not url or "static.recar.lt" not in url: return url
transformed_url = url.replace(OLD_IMAGE_PATH, NEW_IMAGE_PATH)
transformed_url = transformed_url.replace(OLD_EXTENSION, NEW_EXTENSION).replace(".JPG", NEW_EXTENSION)
return transformed_url
``` -/
def transform_image_url (url : String) : String :=
  if url.data.isEmpty || !containsC url.data recarHost then url
  else
    let transformed_url := replaceC url.data OLD_IMAGE_PATH NEW_IMAGE_PATH
    let transformed_url :=
      replaceC (replaceC transformed_url OLD_EXTENSION NEW_EXTENSION) UPPER_JPG NEW_EXTENSION
    String.mk transformed_url

/-! ## Python values and `json.loads`

`PyValue` models the Python values the program can meet in an item's
metadata or in the checkpoint file: `None`, booleans, ints, floats
(carried as their literal text — no claim depends on float printing),
strings, lists and (string-keyed) dicts. -/

inductive PyValue where
  | vNone
  | vBool (b : Bool)
  | vInt (n : Int)
  | vFloat (lit : String)
  | vStr (s : String)
  | vList (l : List PyValue)
  | vDict (entries : List (String × PyValue))

/-- JSON whitespace skipped by Python's `json` module: space, tab, LF, CR. -/
def jsonWsC (c : Char) : Bool :=
  c == ' ' || c == '\t' || c == '\n' || c == '\r'

/-- Drop leading JSON whitespace. -/
def skipWs (l : List Char) : List Char := l.dropWhile jsonWsC

/-- ASCII decimal digit. -/
def isDigitC (c : Char) : Bool := '0' ≤ c && c ≤ '9'

/-- Value of one hex digit, if any. -/
def hexVal (c : Char) : Option Nat :=
  if isDigitC c then some (c.toNat - 48)
  else if 'a' ≤ c && c ≤ 'f' then some (c.toNat - 87)
  else if 'A' ≤ c && c ≤ 'F' then some (c.toNat - 55)
  else Option.none

/-- Digits to a natural number. -/
def digitsToNat (ds : List Char) : Nat :=
  ds.foldl (fun a c => a * 10 + (c.toNat - 48)) 0

/-- Body of a JSON string after the opening quote: returns the decoded
characters and the input after the closing quote.  Escapes are decoded as
Python's `json` does; raw control characters below 0x20 are rejected
(strict mode).  A lone `\uXXXX` is decoded with `Char.ofNat` (surrogate
pairing is not modelled; no claim exercises it). -/
def parseStringBody : Nat → List Char → Option (List Char × List Char)
  | 0, _ => Option.none
  | fuel + 1, l =>
    match l with
    | [] => Option.none
    | '"' :: rest => some ([], rest)
    | '\\' :: e :: rest =>
      let cont := fun (c : Char) (r : List Char) =>
        (parseStringBody fuel r).map (fun p => (c :: p.1, p.2))
      match e with
      | '"' => cont '"' rest
      | '\\' => cont '\\' rest
      | '/' => cont '/' rest
      | 'b' => cont '\x08' rest
      | 'f' => cont '\x0c' rest
      | 'n' => cont '\n' rest
      | 'r' => cont '\r' rest
      | 't' => cont '\t' rest
      | 'u' =>
        match rest with
        | a :: b :: c :: d :: rest2 =>
          match hexVal a, hexVal b, hexVal c, hexVal d with
          | some x, some y, some z, some w =>
            cont (Char.ofNat (((x * 16 + y) * 16 + z) * 16 + w)) rest2
          | _, _, _, _ => Option.none
        | _ => Option.none
      | _ => Option.none
    | c :: rest =>
      if c.toNat < 32 then Option.none
      else (parseStringBody fuel rest).map (fun p => (c :: p.1, p.2))

/-- JSON number per the grammar `-?(0|[1-9][0-9]*)(\.[0-9]+)?([eE][+-]?[0-9]+)?`
used by Python's `json`: an integral literal yields an int, otherwise a
float carrying its literal text. -/
def parseNumber (l : List Char) : Option (PyValue × List Char) :=
  let sign : Bool × List Char := match l with | '-' :: r => (true, r) | _ => (false, l)
  let neg := sign.1
  let l1 := sign.2
  match l1 with
  | [] => Option.none
  | c0 :: _ =>
    if !isDigitC c0 then Option.none
    else
      let ds := l1.takeWhile isDigitC
      let l2 := l1.dropWhile isDigitC
      if ds.length > 1 && ds.head? == some '0' then Option.none
      else
        let intPart : Int := if neg then -(digitsToNat ds : Int) else (digitsToNat ds : Int)
        let fracRes : Option (List Char × List Char) :=
          match l2 with
          | '.' :: r =>
            let fs := r.takeWhile isDigitC
            if fs.isEmpty then Option.none else some ('.' :: fs, r.dropWhile isDigitC)
          | _ => some ([], l2)
        match fracRes with
        | Option.none => Option.none
        | some (fracTxt, l3) =>
          let expRes : Option (List Char × List Char) :=
            match l3 with
            | e :: r =>
              if e == 'e' || e == 'E' then
                let sgn : List Char × List Char :=
                  match r with
                  | '+' :: r2 => (['+'], r2)
                  | '-' :: r2 => (['-'], r2)
                  | _ => ([], r)
                let es := sgn.2.takeWhile isDigitC
                if es.isEmpty then Option.none
                else some (e :: (sgn.1 ++ es), sgn.2.dropWhile isDigitC)
              else some ([], l3)
            | [] => some ([], l3)
          match expRes with
          | Option.none => Option.none
          | some (expTxt, l4) =>
            if fracTxt.isEmpty && expTxt.isEmpty then
              some (PyValue.vInt intPart, l4)
            else
              let txt := (if neg then ['-'] else []) ++ ds ++ fracTxt ++ expTxt
              some (PyValue.vFloat (String.mk txt), l4)

mutual

/-- One JSON value, Python-`json` style (also accepting `NaN`/`Infinity`).
Returns the value and the unconsumed input. -/
def parseValue : Nat → List Char → Option (PyValue × List Char)
  | 0, _ => Option.none
  | fuel + 1, l =>
    match l with
    | [] => Option.none
    | c :: rest =>
      if c == '"' then
        (parseStringBody fuel rest).map (fun p => (PyValue.vStr (String.mk p.1), p.2))
      else if c == '[' then
        let l1 := skipWs rest
        match l1 with
        | ']' :: r => some (PyValue.vList [], r)
        | _ => (parseElems fuel l1).map (fun p => (PyValue.vList p.1, p.2))
      else if c == '{' then
        let l1 := skipWs rest
        match l1 with
        | '}' :: r => some (PyValue.vDict [], r)
        | _ => (parseMembers fuel l1).map (fun p => (PyValue.vDict p.1, p.2))
      else if isPrefixC "null".data l then some (PyValue.vNone, l.drop 4)
      else if isPrefixC "true".data l then some (PyValue.vBool true, l.drop 4)
      else if isPrefixC "false".data l then some (PyValue.vBool false, l.drop 5)
      else if isPrefixC "NaN".data l then some (PyValue.vFloat "nan", l.drop 3)
      else if isPrefixC "Infinity".data l then some (PyValue.vFloat "inf", l.drop 8)
      else if isPrefixC "-Infinity".data l then some (PyValue.vFloat "-inf", l.drop 9)
      else parseNumber l

/-- Comma-separated values up to the closing `]` (input starts at a value). -/
def parseElems : Nat → List Char → Option (List PyValue × List Char)
  | 0, _ => Option.none
  | fuel + 1, l =>
    match parseValue fuel l with
    | Option.none => Option.none
    | some (v, r) =>
      match skipWs r with
      | ',' :: r2 => (parseElems fuel (skipWs r2)).map (fun p => (v :: p.1, p.2))
      | ']' :: r2 => some ([v], r2)
      | _ => Option.none

/-- Comma-separated `"key": value` members up to the closing `}`
(input starts at a key). -/
def parseMembers : Nat → List Char → Option (List (String × PyValue) × List Char)
  | 0, _ => Option.none
  | fuel + 1, l =>
    match l with
    | '"' :: rest =>
      match parseStringBody fuel rest with
      | Option.none => Option.none
      | some (k, r) =>
        match skipWs r with
        | ':' :: r2 =>
          match parseValue fuel (skipWs r2) with
          | Option.none => Option.none
          | some (v, r3) =>
            match skipWs r3 with
            | ',' :: r4 => (parseMembers fuel (skipWs r4)).map
                (fun p => ((String.mk k, v) :: p.1, p.2))
            | '}' :: r4 => some ([(String.mk k, v)], r4)
            | _ => Option.none
        | _ => Option.none
    | _ => Option.none

end

/-- Embedding of `json.loads`: parse one JSON document, allowing only
whitespace around it; `Option.none` models `json.JSONDecodeError`. -/
def pyJsonLoads (s : String) : Option PyValue :=
  match parseValue (2 * s.length + 8) (skipWs s.data) with
  | some (v, rest) => if (skipWs rest).isEmpty then some v else Option.none
  | Option.none => Option.none

/-- Join strings with a separator. -/
def joinSep (sep : String) : List String → String
  | [] => ""
  | [x] => x
  | x :: xs => x ++ sep ++ joinSep sep xs

mutual

/-- Python `str(v)`.  Total on every shape; container printing follows
`repr` of the elements (string-escape details inside `repr` are not
modelled — no claim depends on them, only on `str` never failing). -/
def pyStr : PyValue → String
  | PyValue.vNone => "None"
  | PyValue.vBool b => if b then "True" else "False"
  | PyValue.vInt n => toString n
  | PyValue.vFloat lit => lit
  | PyValue.vStr s => s
  | PyValue.vList l => "[" ++ joinSep ", " (pyReprList l) ++ "]"
  | PyValue.vDict entries => "\x7b" ++ joinSep ", " (pyReprEntries entries) ++ "\x7d"

/-- Python `repr(v)` (as used for elements inside container printing). -/
def pyRepr : PyValue → String
  | PyValue.vStr s => "\x27" ++ s ++ "\x27"
  | PyValue.vList l => "[" ++ joinSep ", " (pyReprList l) ++ "]"
  | PyValue.vDict entries => "\x7b" ++ joinSep ", " (pyReprEntries entries) ++ "\x7d"
  | v => pyStr v

/-- `repr` of each element of a list. -/
def pyReprList : List PyValue → List String
  | [] => []
  | v :: vs => pyRepr v :: pyReprList vs

/-- `repr(k): repr(v)` of each entry of a dict. -/
def pyReprEntries : List (String × PyValue) → List String
  | [] => []
  | (k, v) :: es => ("\x27" ++ k ++ "\x27: " ++ pyRepr v) :: pyReprEntries es

end

/-! ## Metadata normalizer (`normalize_urls`, sample_api.py lines 55–65) -/

/-- Embedding of `normalize_urls` (sample_api.py lines 55–65):
```
if isinstance(raw_value, list): return [str(u).strip() for u in raw_value]
if isinstance(raw_value, str):
    try:
        data = json.loads(raw_value)
        if isinstance(data, list): return [str(u).strip() for u in data]
    except json.JSONDecodeError:
        return [u.strip() for u in raw_value.split(",") if u.strip()]
return []
``` -/
def normalize_urls (raw_value : PyValue) : List String :=
  match raw_value with
  | PyValue.vList l => l.map (fun u => stripS (pyStr u))
  | PyValue.vStr s =>
    match pyJsonLoads s with
    | some (PyValue.vList l) => l.map (fun u => stripS (pyStr u))
    | some _ => []
    | Option.none =>
      (splitCommaS s).filterMap (fun u => if stripS u = "" then Option.none else some (stripS u))
  | _ => []

/-- `json.loads` with its failure made an explicit raised exception:
`json.loads` applied to a `str` raises only `json.JSONDecodeError`. -/
def pyJsonLoadsExc (s : String) : Except String PyValue :=
  match pyJsonLoads s with
  | some v => Except.ok v
  | Option.none => Except.error "json.JSONDecodeError"

/-- `normalize_urls` with exception flow kept explicit: an `Except.error`
result would model an uncaught Python exception escaping the function.
The `try` block evaluates `pyJsonLoadsExc`; its `JSONDecodeError` is the
only exception raised inside the `try` and is caught by the `except`
clause, which returns the comma-split fallback. -/
def normalizeUrlsExc (raw_value : PyValue) : Except String (List String) :=
  match raw_value with
  | PyValue.vList l => Except.ok (l.map (fun u => stripS (pyStr u)))
  | PyValue.vStr s =>
    match pyJsonLoadsExc s with
    | Except.error _ =>
      Except.ok ((splitCommaS s).filterMap
        (fun u => if stripS u = "" then Option.none else some (stripS u)))
    | Except.ok (PyValue.vList l) => Except.ok (l.map (fun u => stripS (pyStr u)))
    | Except.ok _ => Except.ok []
  | _ => Except.ok []

/-! ## Checkpoint store (`load_checkpoint` / `save_checkpoint`, lines 35–46)

The checkpoint resource is modelled by its content: `Option.none` when the
file does not exist, `some c` for a file holding text `c`.  `save_checkpoint`
appears in the batch driver as an append to the run's list of saved
`(page, product_id)` cursors (the file is rewritten on every save; the list
records the sequence of rewrites, whose last element is the final content). -/

/-- Embedding of `load_checkpoint` (sample_api.py lines 35–42): a missing
file or one whose content fails JSON parsing yields `{}`; any content that
parses (of whatever shape) is returned as-is. -/
def load_checkpoint (file : Option String) : PyValue :=
  match file with
  | Option.none => PyValue.vDict []
  | some content =>
    match pyJsonLoads content with
    | some v => v
    | Option.none => PyValue.vDict []

/-- Python `d.get(key, default)`; on a non-dict receiver the attribute
lookup raises `AttributeError`. -/
def pyGet (v : PyValue) (key : String) (default : PyValue) : Except String PyValue :=
  match v with
  | PyValue.vDict entries =>
    Except.ok (((entries.find? (fun kv => kv.1 == key)).map (fun kv => kv.2)).getD default)
  | _ => Except.error "AttributeError"

/-- The resume-point computation of `process_batch` (sample_api.py lines 69–71):
`resume_page = checkpoint.get("last_page", START_PAGE)`,
`resume_product_id = checkpoint.get("last_product_id")`. -/
def computeResume (checkpoint : PyValue) (start_page : Int) :
    Except String (PyValue × PyValue) :=
  match pyGet checkpoint "last_page" (PyValue.vInt start_page) with
  | Except.error e => Except.error e
  | Except.ok rp =>
    match pyGet checkpoint "last_product_id" PyValue.vNone with
    | Except.error e => Except.error e
    | Except.ok rpid => Except.ok (rp, rpid)

/-! ## Batch driver (`process_batch`, sample_api.py lines 68–162)

The driver is embedded as a fold over the page range and, per page, over
the fetched products.  Its observable effects are collected in `RunState`:
the CSV rows written (`rows`), the sequence of `save_checkpoint` calls
(`saves`, each `(page, product_id)` with `Option.none` for the page-completion
save), and the three counters.  `processed` records, in order, the
`(page, id)` of every product that passes the resume filter (exactly the
`total_checked` increments); it is a trace of existing behavior, not new
behavior. -/

/-- One entry of a product's `meta_data`. -/
structure MetaEntry where
  key : String
  value : PyValue

/-- A catalog product as returned by the listing API. -/
structure Product where
  id : Int
  name : String
  meta_data : List MetaEntry

/-- Result of the page fetch: a transport/HTTP failure with its detail, or
the decoded product list. -/
inductive FetchResult where
  | err (detail : String)
  | ok (products : List Product)

/-- Status column of a CSV log row. -/
inductive RowStatus where
  | updated
  | failed (detail : String)
  | error (detail : String)
  | emptyPage
deriving DecidableEq

/-- One CSV log row `page, product_id, product_name, old_url, new_url, status`
(`Option.none` models a `"-"` cell). -/
structure LogRow where
  page : Int
  product_id : Option Int
  product_name : Option String
  old_url : Option String
  new_url : Option String
  status : RowStatus
deriving DecidableEq

/-- Accumulated observable state of one driver run. -/
structure RunState where
  rows : List LogRow
  saves : List (Int × Option Int)
  processed : List (Int × Int)
  total_checked : Nat
  total_updated : Nat
  total_skipped : Nat
deriving DecidableEq

/-- The state at the start of a run. -/
def initState : RunState := ⟨[], [], [], 0, 0, 0⟩

/-- The resume filter (sample_api.py line 106):
`page == resume_page and resume_product_id and product["id"] <= resume_product_id`
(`resume_product_id` is falsy when `None` or `0`). -/
def resumeSkip (page resume_page : Int) (resume_product_id : Option Int) (id : Int) : Bool :=
  page == resume_page &&
    (match resume_product_id with
     | some x => !(x == 0) && id ≤ x
     | Option.none => false)

/-- The designated metadata entry (sample_api.py line 111):
`next((m for m in meta_data if m.get("key") == "product_images_url"), None)`. -/
def findImageMeta (pr : Product) : Option MetaEntry :=
  pr.meta_data.find? (fun m => m.key == "product_images_url")

/-- Per-product body of the page loop (sample_api.py lines 104–149).
`upd page id = Option.none` models a successful PUT, `some e` a
`requests.RequestException` with detail `e`. -/
def processItem (resume_page : Int) (resume_product_id : Option Int)
    (upd : Int → Int → Option String) (page : Int)
    (st : RunState) (product : Product) : RunState :=
  if resumeSkip page resume_page resume_product_id product.id then st
  else
    let st := { st with total_checked := st.total_checked + 1,
                        processed := st.processed ++ [(page, product.id)] }
    match findImageMeta product with
    | Option.none => { st with total_skipped := st.total_skipped + 1 }
    | some image_meta =>
      let urls := normalize_urls image_meta.value
      if urls.isEmpty then { st with total_skipped := st.total_skipped + 1 }
      else
        let updated_urls := urls.map transform_image_url
        if urls = updated_urls then { st with total_skipped := st.total_skipped + 1 }
        else
          let st := { st with total_updated := st.total_updated + 1 }
          let st := { st with rows := st.rows ++
            ((urls.zip updated_urls).filterMap (fun p : String × String =>
              if p.1 ≠ p.2 then
                some (⟨page, some product.id, some product.name, some p.1, some p.2,
                      RowStatus.updated⟩ : LogRow)
              else Option.none)) }
          match upd page product.id with
          | Option.none => { st with saves := st.saves ++ [(page, some product.id)] }
          | some e => { st with rows := st.rows ++
              [(⟨page, some product.id, some product.name, Option.none, Option.none,
                RowStatus.failed e⟩ : LogRow)] }

/-- Per-page body of the driver loop (sample_api.py lines 81–152): fetch
failure logs an ERROR row and moves on; an empty product list logs
EMPTY PAGE and moves on; otherwise every product is processed and the
page-completion checkpoint `save_checkpoint(page)` is recorded. -/
def processPage (resume_page : Int) (resume_product_id : Option Int)
    (fetch : Int → FetchResult) (upd : Int → Int → Option String)
    (st : RunState) (page : Int) : RunState :=
  match fetch page with
  | FetchResult.err e =>
    { st with rows := st.rows ++
        [⟨page, Option.none, Option.none, Option.none, Option.none, RowStatus.error e⟩] }
  | FetchResult.ok products =>
    if products.isEmpty then
      { st with rows := st.rows ++
          [⟨page, Option.none, Option.none, Option.none, Option.none, RowStatus.emptyPage⟩] }
    else
      let st := products.foldl (processItem resume_page resume_product_id upd page) st
      { st with saves := st.saves ++ [(page, Option.none)] }

/-- Python `range(a, b)` as a list of `Int`. -/
def pythonRange (a b : Int) : List Int :=
  (List.range (b - a).toNat).map (fun i : Nat => a + (i : Int))

/-- The driver loop `for page in range(resume_page, END_PAGE + 1)`
(sample_api.py lines 81–152), given the already-computed resume point. -/
def process_batch_run (resume_page : Int) (resume_product_id : Option Int)
    (end_page : Int) (fetch : Int → FetchResult) (upd : Int → Int → Option String) :
    RunState :=
  (pythonRange resume_page (end_page + 1)).foldl
    (processPage resume_page resume_product_id fetch upd) initState

/-- Full `process_batch` (sample_api.py lines 68–162): load the checkpoint,
compute the resume point, run the page loop.  A non-int `last_page` makes
`range(...)` raise `TypeError`; a `last_product_id` that is neither `None`
nor an int makes the per-item comparison `product["id"] <= resume_product_id`
raise `TypeError` (Python raises it lazily at the first compared item; it is
modelled eagerly here — the claims only exercise well-shaped checkpoints). -/
def process_batch (file : Option String) (start_page end_page : Int)
    (fetch : Int → FetchResult) (upd : Int → Int → Option String) :
    Except String RunState :=
  match computeResume (load_checkpoint file) start_page with
  | Except.error e => Except.error e
  | Except.ok (rp, rpid) =>
    match rp with
    | PyValue.vInt resume_page =>
      match rpid with
      | PyValue.vNone =>
        Except.ok (process_batch_run resume_page Option.none end_page fetch upd)
      | PyValue.vInt x =>
        Except.ok (process_batch_run resume_page (some x) end_page fetch upd)
      | _ => Except.error "TypeError"
    | _ => Except.error "TypeError"

/-! ## Derived views of a run

`stApp` composes run states (the driver only ever appends to its lists and
adds to its counters); the `page…` functions are the closed forms of one
page's contribution, proved equal to the driver's fold below. -/

/-- Concatenation of two run states, componentwise. -/
def stApp (a b : RunState) : RunState :=
  ⟨a.rows ++ b.rows, a.saves ++ b.saves, a.processed ++ b.processed,
   a.total_checked + b.total_checked, a.total_updated + b.total_updated,
   a.total_skipped + b.total_skipped⟩

/-- Whether a product's processing reaches a *successful* update call and
therefore records the per-item checkpoint save: it passes the resume
filter, has the designated metadata entry with a non-empty normalized URL
list that the transformer changes, and the PUT succeeds. -/
def itemSaved (resume_page : Int) (resume_product_id : Option Int)
    (upd : Int → Int → Option String) (page : Int) (pr : Product) : Bool :=
  !resumeSkip page resume_page resume_product_id pr.id &&
    (match findImageMeta pr with
     | Option.none => false
     | some m =>
       let urls := normalize_urls m.value
       !urls.isEmpty && !(urls == urls.map transform_image_url) && (upd page pr.id).isNone)

/-- The products a page fetch yields (none on transport failure). -/
def pageProducts (fetch : Int → FetchResult) (page : Int) : List Product :=
  match fetch page with
  | FetchResult.ok products => products
  | FetchResult.err _ => []

/-- Closed form of the `(page, id)` trace one page contributes: every
fetched product that passes the resume filter, in fetch order. -/
def pageProcessed (resume_page : Int) (resume_product_id : Option Int)
    (fetch : Int → FetchResult) (page : Int) : List (Int × Int) :=
  ((pageProducts fetch page).filter
    (fun pr => !resumeSkip page resume_page resume_product_id pr.id)).map
    (fun pr => (page, pr.id))

/-- Closed form of the checkpoint saves one page contributes: one
`(page, some id)` per successfully updated product, then the
page-completion save `(page, none)` — and nothing at all when the fetch
failed or returned no products. -/
def pageSaves (resume_page : Int) (resume_product_id : Option Int)
    (fetch : Int → FetchResult) (upd : Int → Int → Option String) (page : Int) :
    List (Int × Option Int) :=
  match fetch page with
  | FetchResult.err _ => []
  | FetchResult.ok products =>
    if products.isEmpty then []
    else
      (products.filter (itemSaved resume_page resume_product_id upd page)).map
        (fun pr => (page, some pr.id)) ++ [(page, Option.none)]

/-- Lexicographic order on saved checkpoints, with the page-completion
save (`Option.none`, "whole page done") as the top element of its page. -/
def cpLeB (x y : Int × Option Int) : Bool :=
  decide (x.1 < y.1) ||
    (decide (x.1 = y.1) &&
      (match x.2, y.2 with
       | _, Option.none => true
       | Option.none, some _ => false
       | some a, some b => decide (a ≤ b)))

/-- Propositional form of `cpLeB`. -/
def cpLe (x y : Int × Option Int) : Prop := cpLeB x y = true

instance (x y : Int × Option Int) : Decidable (cpLe x y) :=
  inferInstanceAs (Decidable (cpLeB x y = true))

/-! ## Concrete fixtures used by witnesses and counterexamples -/

/-- A product whose image URL the transformer changes. -/
def mkProd (i : Int) : Product :=
  ⟨i, "prod", [⟨"product_images_url",
    PyValue.vStr "https://static.recar.lt/images/a.jpg"⟩]⟩

/-- Fetch oracle: page 2 has ids `[2, 3, 4]`, page 3 has id `[1]`, every
other page fails. -/
def witFetch1 : Int → FetchResult := fun p =>
  if p == 2 then FetchResult.ok [mkProd 2, mkProd 3, mkProd 4]
  else if p == 3 then FetchResult.ok [mkProd 1]
  else FetchResult.err "boom"

/-- Fetch oracle with descending ids on page 1. -/
def witFetchDesc : Int → FetchResult := fun p =>
  if p == 1 then FetchResult.ok [mkProd 5, mkProd 3]
  else FetchResult.err "boom"

/-- Update oracle: every PUT succeeds. -/
def witUpdOk : Int → Int → Option String := fun _ _ => Option.none

/-- Update oracle: every PUT fails with detail `"HTTP 500"`. -/
def witUpdFail : Int → Int → Option String := fun _ _ => some "HTTP 500"

/-! ## Sanity checks on concrete inputs -/

example :
    transform_image_url "https://static.recar.lt/images/x/1.jpg"
      = "https://static.recar.lt/pictures/x/1.webp" := by decide

example :
    transform_image_url (transform_image_url "https://static.recar.lt/images/images/a")
      ≠ transform_image_url "https://static.recar.lt/images/images/a" := by decide

example : pyJsonLoads "[\"a\",\"b\"]" = some (PyValue.vList [PyValue.vStr "a", PyValue.vStr "b"]) := rfl
example : pyJsonLoads "a, b" = Option.none := rfl
example : pyJsonLoads "5" = some (PyValue.vInt 5) := rfl
example : pyJsonLoads " \x7b\"last_page\": 3, \"last_product_id\": null\x7d "
    = some (PyValue.vDict [("last_page", PyValue.vInt 3), ("last_product_id", PyValue.vNone)]) := rfl

example : normalize_urls (PyValue.vStr "a, b") = ["a", "b"] := rfl
example : normalize_urls (PyValue.vStr "[\"a\",\"b\"]") = ["a", "b"] := by
  simp only [normalize_urls, show pyJsonLoads "[\"a\",\"b\"]"
    = some (PyValue.vList [PyValue.vStr "a", PyValue.vStr "b"]) from rfl, List.map, pyStr]
  exact rfl
example : normalize_urls (PyValue.vList [PyValue.vStr "a", PyValue.vStr "b"]) = ["a", "b"] := by
  simp only [normalize_urls, List.map, pyStr]
  exact rfl

example : load_checkpoint (some "5") = PyValue.vInt 5 := rfl
example : computeResume (load_checkpoint (some "5")) 1 = Except.error "AttributeError" := rfl
example : computeResume (load_checkpoint (some "not json")) 1
    = Except.ok (PyValue.vInt 1, PyValue.vNone) := rfl

/-! ## Replacement theory

Lemmas about `replaceFuel` needed for the transformer claims: a replace
with no occurrence of the pattern is the identity, the extension replaces
remove every occurrence of their pattern and cannot manufacture a new
`".jpg"`, while the path replace *can* leave a fresh `"/images/"` behind
(overlapping occurrences), which is what breaks unconditional idempotence. -/

lemma OLD_EXTENSION_def : OLD_EXTENSION = ['.', 'j', 'p', 'g'] := rfl

lemma UPPER_JPG_def : UPPER_JPG = ['.', 'J', 'P', 'G'] := rfl

lemma NEW_EXTENSION_def : NEW_EXTENSION = ['.', 'w', 'e', 'b', 'p'] := rfl

lemma OLD_IMAGE_PATH_def : OLD_IMAGE_PATH = ['/', 'i', 'm', 'a', 'g', 'e', 's', '/'] := rfl

/-- A replace whose pattern does not occur leaves the string unchanged. -/
lemma replaceFuel_of_not_contains (pat rep : List Char) :
    ∀ (fuel : Nat) (s : List Char), containsC s pat = false →
      replaceFuel fuel s pat rep = s := by
  intro fuel
  induction fuel with
  | zero => intro s _; rfl
  | succ fuel ih =>
    intro s h
    match s with
    | [] => rfl
    | c :: rest =>
      simp only [containsC, Bool.or_eq_false_iff] at h
      simp only [replaceFuel, h.1, Bool.and_false, Bool.false_eq_true, if_neg,
        reduceIte]
      exact congrArg (c :: ·) (ih rest h.2)

/-- `replaceC` version of `replaceFuel_of_not_contains`. -/
lemma replaceC_of_not_contains (s pat rep : List Char) (h : containsC s pat = false) :
    replaceC s pat rep = s :=
  replaceFuel_of_not_contains pat rep s.length s h

/-- Absence of a pattern survives dropping a prefix. -/
lemma containsC_drop_eq_false (pat : List Char) :
    ∀ (l : List Char) (n : Nat), containsC l pat = false →
      containsC (l.drop n) pat = false := by
  intro l
  induction l with
  | nil => intro n h; simpa using h
  | cons c rest ih =>
    intro n h
    match n with
    | 0 => exact h
    | m + 1 =>
      simp only [containsC, Bool.or_eq_false_iff] at h
      exact ih m h.2

/-- A probe word containing no `'.'` that starts the output of a replace
by `NEW_EXTENSION = ".webp"` already started the input: the probe cannot
begin inside an inserted `".webp"`, whose head is `'.'`. -/
lemma probe_through_replace (q : List Char) (hq : ∀ c ∈ q, c ≠ '.') (pat : List Char) :
    ∀ (fuel : Nat) (r : List Char),
      isPrefixC q (replaceFuel fuel r pat NEW_EXTENSION) = true →
      isPrefixC q r = true := by
  induction q with
  | nil => intro fuel r _; rfl
  | cons qc qtail ih =>
    intro fuel r h
    match fuel with
    | 0 => exact h
    | fuel + 1 =>
      match r with
      | [] => simpa using h
      | c :: rest =>
        by_cases hcond : (!pat.isEmpty && isPrefixC pat (c :: rest)) = true
        · rw [replaceFuel, if_pos hcond, NEW_EXTENSION_def] at h
          simp only [List.cons_append, isPrefixC, Bool.and_eq_true, beq_iff_eq] at h
          exact absurd h.1 (hq qc (List.mem_cons_self qc qtail))
        · rw [replaceFuel, if_neg hcond] at h
          simp only [isPrefixC, Bool.and_eq_true] at h ⊢
          exact ⟨h.1, ih (fun c hc => hq c (List.mem_cons_of_mem qc hc)) fuel rest h.2⟩

/-- Replacing `".jpg"` by `".webp"` removes every occurrence of `".jpg"`
and creates none: occurrences cannot overlap each other (`".jpg"` has no
non-trivial border) and none can straddle an inserted `".webp"`. -/
lemma contains_jpg_replace_eq_false :
    ∀ (fuel : Nat) (s : List Char), s.length ≤ fuel →
      containsC (replaceFuel fuel s OLD_EXTENSION NEW_EXTENSION) OLD_EXTENSION = false := by
  intro fuel
  induction fuel with
  | zero =>
    intro s hs
    have hnil : s = [] := List.eq_nil_of_length_eq_zero (Nat.le_zero.mp hs)
    subst hnil; rfl
  | succ fuel ih =>
    intro s hs
    match s with
    | [] => rfl
    | c :: rest =>
      have hrest : rest.length ≤ fuel := by
        simpa using Nat.le_of_succ_le_succ (by simpa [List.length_cons] using hs)
      by_cases hpre : isPrefixC OLD_EXTENSION (c :: rest) = true
      · have hcond : (!OLD_EXTENSION.isEmpty && isPrefixC OLD_EXTENSION (c :: rest)) = true := by
          rw [Bool.and_eq_true]
          exact ⟨by decide, hpre⟩
        rw [replaceFuel, if_pos hcond]
        have hdroplen : (rest.drop (OLD_EXTENSION.length - 1)).length ≤ fuel := by
          simp only [List.length_drop]
          omega
        have hR := ih (rest.drop (OLD_EXTENSION.length - 1)) hdroplen
        rw [OLD_EXTENSION_def, NEW_EXTENSION_def] at hR
        simp only [List.length_cons, List.length_nil] at hR
        norm_num at hR
        rw [NEW_EXTENSION_def, OLD_EXTENSION_def]
        simp only [List.cons_append, List.nil_append, containsC, isPrefixC]
        simp [hR]
      · have hpre' : isPrefixC OLD_EXTENSION (c :: rest) = false := by
          simpa [Bool.not_eq_true] using hpre
        rw [replaceFuel, if_neg (by simp [hpre'])]
        have hR := ih rest hrest
        simp only [containsC, Bool.or_eq_false_iff]
        refine ⟨?_, hR⟩
        by_contra hp
        rw [Bool.not_eq_false, OLD_EXTENSION_def] at hp
        simp only [isPrefixC, Bool.and_eq_true, beq_iff_eq] at hp
        have hrestpre := probe_through_replace ['j', 'p', 'g'] (by decide) OLD_EXTENSION
          fuel rest hp.2
        apply hpre
        rw [OLD_EXTENSION_def]
        simp only [isPrefixC, Bool.and_eq_true, beq_iff_eq]
        exact ⟨hp.1, hrestpre⟩

/-- Replacing `".JPG"` by `".webp"` removes every occurrence of `".JPG"`
and creates none. -/
lemma contains_JPG_replace_eq_false :
    ∀ (fuel : Nat) (s : List Char), s.length ≤ fuel →
      containsC (replaceFuel fuel s UPPER_JPG NEW_EXTENSION) UPPER_JPG = false := by
  intro fuel
  induction fuel with
  | zero =>
    intro s hs
    have hnil : s = [] := List.eq_nil_of_length_eq_zero (Nat.le_zero.mp hs)
    subst hnil; rfl
  | succ fuel ih =>
    intro s hs
    match s with
    | [] => rfl
    | c :: rest =>
      have hrest : rest.length ≤ fuel := by
        simpa using Nat.le_of_succ_le_succ (by simpa [List.length_cons] using hs)
      by_cases hpre : isPrefixC UPPER_JPG (c :: rest) = true
      · have hcond : (!UPPER_JPG.isEmpty && isPrefixC UPPER_JPG (c :: rest)) = true := by
          rw [Bool.and_eq_true]
          exact ⟨by decide, hpre⟩
        rw [replaceFuel, if_pos hcond]
        have hdroplen : (rest.drop (UPPER_JPG.length - 1)).length ≤ fuel := by
          simp only [List.length_drop]
          omega
        have hR := ih (rest.drop (UPPER_JPG.length - 1)) hdroplen
        rw [UPPER_JPG_def, NEW_EXTENSION_def] at hR
        simp only [List.length_cons, List.length_nil] at hR
        norm_num at hR
        rw [NEW_EXTENSION_def, UPPER_JPG_def]
        simp only [List.cons_append, List.nil_append, containsC, isPrefixC]
        simp [hR]
      · have hpre' : isPrefixC UPPER_JPG (c :: rest) = false := by
          simpa [Bool.not_eq_true] using hpre
        rw [replaceFuel, if_neg (by simp [hpre'])]
        have hR := ih rest hrest
        simp only [containsC, Bool.or_eq_false_iff]
        refine ⟨?_, hR⟩
        by_contra hp
        rw [Bool.not_eq_false, UPPER_JPG_def] at hp
        simp only [isPrefixC, Bool.and_eq_true, beq_iff_eq] at hp
        have hrestpre := probe_through_replace ['J', 'P', 'G'] (by decide) UPPER_JPG
          fuel rest hp.2
        apply hpre
        rw [UPPER_JPG_def]
        simp only [isPrefixC, Bool.and_eq_true, beq_iff_eq]
        exact ⟨hp.1, hrestpre⟩

/-- The `".JPG"` replace cannot introduce a `".jpg"`: if the input has no
`".jpg"`, neither has the output. -/
lemma contains_jpg_JPG_replace_eq_false :
    ∀ (fuel : Nat) (s : List Char), s.length ≤ fuel →
      containsC s OLD_EXTENSION = false →
      containsC (replaceFuel fuel s UPPER_JPG NEW_EXTENSION) OLD_EXTENSION = false := by
  intro fuel
  induction fuel with
  | zero =>
    intro s hs h
    have hnil : s = [] := List.eq_nil_of_length_eq_zero (Nat.le_zero.mp hs)
    subst hnil; rfl
  | succ fuel ih =>
    intro s hs h
    match s with
    | [] => rfl
    | c :: rest =>
      have hrest : rest.length ≤ fuel := by
        simpa using Nat.le_of_succ_le_succ (by simpa [List.length_cons] using hs)
      simp only [containsC, Bool.or_eq_false_iff] at h
      by_cases hpre : isPrefixC UPPER_JPG (c :: rest) = true
      · have hcond : (!UPPER_JPG.isEmpty && isPrefixC UPPER_JPG (c :: rest)) = true := by
          rw [Bool.and_eq_true]
          exact ⟨by decide, hpre⟩
        rw [replaceFuel, if_pos hcond]
        have hdroplen : (rest.drop (UPPER_JPG.length - 1)).length ≤ fuel := by
          simp only [List.length_drop]
          omega
        have hdropfree : containsC (rest.drop (UPPER_JPG.length - 1)) OLD_EXTENSION = false :=
          containsC_drop_eq_false OLD_EXTENSION rest (UPPER_JPG.length - 1) h.2
        have hR := ih (rest.drop (UPPER_JPG.length - 1)) hdroplen hdropfree
        rw [UPPER_JPG_def, NEW_EXTENSION_def, OLD_EXTENSION_def] at hR
        simp only [List.length_cons, List.length_nil] at hR
        norm_num at hR
        rw [NEW_EXTENSION_def, UPPER_JPG_def, OLD_EXTENSION_def]
        simp only [List.cons_append, List.nil_append, containsC, isPrefixC]
        simp [hR]
      · have hpre' : isPrefixC UPPER_JPG (c :: rest) = false := by
          simpa [Bool.not_eq_true] using hpre
        rw [replaceFuel, if_neg (by simp [hpre'])]
        have hR := ih rest hrest h.2
        simp only [containsC, Bool.or_eq_false_iff]
        refine ⟨?_, hR⟩
        by_contra hp
        rw [Bool.not_eq_false, OLD_EXTENSION_def] at hp
        simp only [isPrefixC, Bool.and_eq_true, beq_iff_eq] at hp
        have hrestpre := probe_through_replace ['j', 'p', 'g'] (by decide) UPPER_JPG
          fuel rest hp.2
        have : isPrefixC OLD_EXTENSION (c :: rest) = true := by
          rw [OLD_EXTENSION_def]
          simp only [isPrefixC, Bool.and_eq_true, beq_iff_eq]
          exact ⟨hp.1, hrestpre⟩
        rw [h.1] at this
        exact Bool.false_ne_true this

/-- The two extension replaces of the transformer leave neither a `".jpg"`
nor a `".JPG"` in their output, whatever the input. -/
lemma extension_chain_free (s : List Char) :
    containsC (replaceC (replaceC s OLD_EXTENSION NEW_EXTENSION) UPPER_JPG NEW_EXTENSION)
      OLD_EXTENSION = false ∧
    containsC (replaceC (replaceC s OLD_EXTENSION NEW_EXTENSION) UPPER_JPG NEW_EXTENSION)
      UPPER_JPG = false := by
  constructor
  · exact contains_jpg_JPG_replace_eq_false _ _ le_rfl
      (contains_jpg_replace_eq_false s.length s le_rfl)
  · exact contains_JPG_replace_eq_false _ _ le_rfl

/-- On a URL of the recognized host, the transformer is the three-replace
chain. -/
lemma transform_image_url_host (u : String)
    (h : (u.data.isEmpty || !containsC u.data recarHost) = false) :
    transform_image_url u
      = String.mk (replaceC (replaceC (replaceC u.data OLD_IMAGE_PATH NEW_IMAGE_PATH)
          OLD_EXTENSION NEW_EXTENSION) UPPER_JPG NEW_EXTENSION) := by
  unfold transform_image_url
  rw [if_neg (by simp [h])]

/-- C9: for every URL that is empty or does not contain the recognized
host `static.recar.lt`, the transformer is the identity (no substitution
is applied). -/
theorem transform_image_url_gating (u : String)
    (h : u = "" ∨ containsC u.data recarHost = false) :
    transform_image_url u = u := by
  unfold transform_image_url
  rcases h with h | h
  · subst h
    rfl
  · rw [if_pos (by simp [h])]

/-- Witness for C9 at a non-host URL. -/
theorem transform_image_url_gating_witness :
    ("http://example.com/images/a.jpg" = "" ∨
      containsC ("http://example.com/images/a.jpg" : String).data recarHost = false) ∧
    transform_image_url "http://example.com/images/a.jpg" = "http://example.com/images/a.jpg" :=
  ⟨Or.inr (by decide), transform_image_url_gating _ (Or.inr (by decide))⟩

/-- C2 (counterexample): the transformer is *not* idempotent on every
string.  On `".../images/images/a"` the first application rewrites only the
first overlapping `"/images/"` occurrence, leaving a new `"/images/"` that
the second application rewrites again. -/
theorem transform_image_url_not_idempotent :
    transform_image_url (transform_image_url "https://static.recar.lt/images/images/a")
      ≠ transform_image_url "https://static.recar.lt/images/images/a" := by
  decide

/-- C2 (amended): the transformer is idempotent on every URL whose first
transformation leaves no `"/images/"` behind (its output never contains
`".jpg"` or `".JPG"`, so only a leftover `"/images/"` — which arises only
from overlapping occurrences such as `"/images/images/"` — can make a
second application act again). -/
theorem transform_image_url_idempotent (u : String)
    (h : containsC (transform_image_url u).data OLD_IMAGE_PATH = false) :
    transform_image_url (transform_image_url u) = transform_image_url u := by
  by_cases h0 : (u.data.isEmpty || !containsC u.data recarHost) = true
  · have ht : transform_image_url u = u := by
      unfold transform_image_url
      rw [if_pos h0]
    rw [ht]
    exact ht
  · have h0' : (u.data.isEmpty || !containsC u.data recarHost) = false := by
      simpa [Bool.not_eq_true] using h0
    have ht := transform_image_url_host u h0'
    have hdata : (transform_image_url u).data
        = replaceC (replaceC (replaceC u.data OLD_IMAGE_PATH NEW_IMAGE_PATH)
            OLD_EXTENSION NEW_EXTENSION) UPPER_JPG NEW_EXTENSION := by
      rw [ht]
    have hfree := extension_chain_free (replaceC u.data OLD_IMAGE_PATH NEW_IMAGE_PATH)
    have hd_path : containsC (transform_image_url u).data OLD_IMAGE_PATH = false := h
    have hd_jpg : containsC (transform_image_url u).data OLD_EXTENSION = false := by
      rw [hdata]; exact hfree.1
    have hd_JPG : containsC (transform_image_url u).data UPPER_JPG = false := by
      rw [hdata]; exact hfree.2
    obtain ⟨d, hd⟩ : ∃ d, transform_image_url u = d := ⟨_, rfl⟩
    rw [hd] at hd_path hd_jpg hd_JPG ⊢
    by_cases h1 : (d.data.isEmpty || !containsC d.data recarHost) = true
    · unfold transform_image_url
      rw [if_pos h1]
    · unfold transform_image_url
      rw [if_neg h1]
      simp only [replaceC_of_not_contains _ _ _ hd_path,
        replaceC_of_not_contains _ _ _ hd_jpg,
        replaceC_of_not_contains _ _ _ hd_JPG]

/-- Witness for the amended C2 at a URL whose transform retriggers nothing. -/
theorem transform_image_url_idempotent_witness :
    containsC (transform_image_url "https://static.recar.lt/images/a.jpg").data
      OLD_IMAGE_PATH = false ∧
    transform_image_url (transform_image_url "https://static.recar.lt/images/a.jpg")
      = transform_image_url "https://static.recar.lt/images/a.jpg" :=
  ⟨by decide, transform_image_url_idempotent _ (by decide)⟩

/-- C6 (counterexample): the extension substitution is *not*
case-insensitive.  A URL on the recognized host whose image ends in
`".Jpg"` is returned entirely unchanged: only the exact casings `".jpg"`
and `".JPG"` are replaced. -/
theorem transform_image_url_mixed_case_kept :
    containsC ("https://static.recar.lt/a.Jpg" : String).data ".Jpg".data = true ∧
    transform_image_url "https://static.recar.lt/a.Jpg" = "https://static.recar.lt/a.Jpg" := by
  constructor
  · decide
  · decide

/-- C6 (amended): on every URL of the recognized host the transformer
replaces every occurrence of the exact casings `".jpg"` and `".JPG"`
(none remains in the output), but no other casing of the extension. -/
theorem transform_image_url_exact_case_extensions (u : String)
    (h : containsC u.data recarHost = true) :
    containsC (transform_image_url u).data OLD_EXTENSION = false ∧
    containsC (transform_image_url u).data UPPER_JPG = false := by
  have hne : u.data.isEmpty = false := by
    cases hu : u.data with
    | nil => rw [hu] at h; exact absurd h (by decide)
    | cons c rest => rfl
  have h0' : (u.data.isEmpty || !containsC u.data recarHost) = false := by
    simp [hne, h]
  have ht := transform_image_url_host u h0'
  have hfree := extension_chain_free (replaceC u.data OLD_IMAGE_PATH NEW_IMAGE_PATH)
  constructor
  · rw [ht]; exact hfree.1
  · rw [ht]; exact hfree.2

/-- Witness for the amended C6. -/
theorem transform_image_url_exact_case_extensions_witness :
    containsC ("https://static.recar.lt/images/a.jpg" : String).data recarHost = true ∧
    (containsC (transform_image_url "https://static.recar.lt/images/a.jpg").data
        OLD_EXTENSION = false ∧
     containsC (transform_image_url "https://static.recar.lt/images/a.jpg").data
        UPPER_JPG = false) :=
  ⟨by decide, transform_image_url_exact_case_extensions _ (by decide)⟩

/-- C7: the three input shapes — a real list, a JSON-encoded list, and a
comma-separated string — normalize to the same sequence `["a", "b"]`. -/
theorem normalize_urls_equivalence :
    normalize_urls (PyValue.vList [PyValue.vStr "a", PyValue.vStr "b"]) = ["a", "b"] ∧
    normalize_urls (PyValue.vStr "[\"a\",\"b\"]") = ["a", "b"] ∧
    normalize_urls (PyValue.vStr "a, b") = ["a", "b"] := by
  refine ⟨?_, ?_, rfl⟩
  · simp only [normalize_urls, List.map, pyStr]
    exact rfl
  · simp only [normalize_urls, show pyJsonLoads "[\"a\",\"b\"]"
      = some (PyValue.vList [PyValue.vStr "a", PyValue.vStr "b"]) from rfl, List.map, pyStr]
    exact rfl

/-- C8: the normalizer is total — for every input shape the
exception-explicit embedding returns `Except.ok` (no Python exception
escapes), and its value is the one computed by the pure `normalize_urls`
(a list, a parsed JSON list, a best-effort comma split, or the empty
sequence). -/
theorem normalize_urls_never_raises (v : PyValue) :
    normalizeUrlsExc v = Except.ok (normalize_urls v) := by
  cases v with
  | vStr s =>
    simp only [normalizeUrlsExc, pyJsonLoadsExc, normalize_urls]
    cases h : pyJsonLoads s with
    | none => rfl
    | some v2 => cases v2 <;> rfl
  | vNone => rfl
  | vBool b => rfl
  | vInt n => rfl
  | vFloat lit => rfl
  | vList l => rfl
  | vDict entries => rfl

/-- C8 has no hypothesis, but record a closed instance evaluating the
totality on one malformed input. -/
theorem normalize_urls_never_raises_witness :
    normalizeUrlsExc (PyValue.vStr "a, b") = Except.ok ["a", "b"] := rfl

/-- C5 (counterexample): the checkpoint content `"5"` is valid JSON of the
wrong shape.  `load_checkpoint` does *not* treat it as absent (it returns
the integer 5, not the empty checkpoint), and the resume-point computation
`checkpoint.get("last_page", START_PAGE)` then raises `AttributeError` —
loading is fatal for this content. -/
theorem checkpoint_load_shape_fatal :
    load_checkpoint (some "5") = PyValue.vInt 5 ∧
    computeResume (load_checkpoint (some "5")) 1 = Except.error "AttributeError" :=
  ⟨rfl, rfl⟩

/-- C5 (amended): a missing checkpoint, or any content that fails JSON
parsing, is treated as absent: `load_checkpoint` returns the empty
checkpoint and the resume point falls back to the defaults (configured
start page, no item id) without error.  Content that parses as JSON of an
unexpected non-object shape, however, is returned as-is and the resume
computation raises. -/
theorem checkpoint_load_falls_back (c : String) (sp : Int)
    (h : pyJsonLoads c = Option.none) :
    load_checkpoint (some c) = PyValue.vDict [] ∧
    computeResume (load_checkpoint (some c)) sp = Except.ok (PyValue.vInt sp, PyValue.vNone) ∧
    computeResume (load_checkpoint Option.none) sp
      = Except.ok (PyValue.vInt sp, PyValue.vNone) := by
  have h1 : load_checkpoint (some c) = PyValue.vDict [] := by
    simp only [load_checkpoint]
    rw [h]
  exact ⟨h1, by rw [h1]; rfl, rfl⟩

/-- Witness for the amended C5 at a non-JSON content. -/
theorem checkpoint_load_falls_back_witness :
    pyJsonLoads "not json" = Option.none ∧
    (load_checkpoint (some "not json") = PyValue.vDict [] ∧
     computeResume (load_checkpoint (some "not json")) 7
        = Except.ok (PyValue.vInt 7, PyValue.vNone) ∧
     computeResume (load_checkpoint Option.none) 7
        = Except.ok (PyValue.vInt 7, PyValue.vNone)) :=
  ⟨rfl, checkpoint_load_falls_back "not json" 7 rfl⟩

/-! ## Structure of the driver fold -/

lemma stApp_init_right (a : RunState) : stApp a initState = a := by
  cases a
  simp [stApp, initState]

lemma stApp_assoc (a b c : RunState) : stApp (stApp a b) c = stApp a (stApp b c) := by
  cases a; cases b; cases c
  simp [stApp, List.append_assoc, Nat.add_assoc]

/-- `processItem` only appends to the state it is given: its effect is the
effect it has on the empty state, concatenated on the right. -/
lemma processItem_delta (rp : Int) (rpid : Option Int) (upd : Int → Int → Option String)
    (page : Int) (st : RunState) (pr : Product) :
    processItem rp rpid upd page st pr
      = stApp st (processItem rp rpid upd page initState pr) := by
  unfold processItem
  by_cases h1 : resumeSkip page rp rpid pr.id = true
  · rw [if_pos h1, if_pos h1, stApp_init_right]
  · rw [if_neg h1, if_neg h1]
    cases hm : findImageMeta pr with
    | none => cases st; simp [stApp, initState]
    | some m =>
      dsimp only
      by_cases h2 : (normalize_urls m.value).isEmpty = true
      · rw [if_pos h2, if_pos h2]
        cases st; simp [stApp, initState]
      · rw [if_neg h2, if_neg h2]
        by_cases h3 : normalize_urls m.value
            = (normalize_urls m.value).map transform_image_url
        · rw [if_pos h3, if_pos h3]
          cases st; simp [stApp, initState]
        · rw [if_neg h3, if_neg h3]
          cases hu : upd page pr.id with
          | none => cases st; simp [stApp, initState]
          | some e => cases st; simp [stApp, initState]

/-- Folding an append-only step from any state is folding it from the
empty state, concatenated on the right. -/
lemma foldl_delta {α : Type} (f : RunState → α → RunState)
    (hf : ∀ st x, f st x = stApp st (f initState x)) :
    ∀ (l : List α) (st : RunState), l.foldl f st = stApp st (l.foldl f initState) := by
  intro l
  induction l with
  | nil => intro st; simp [List.foldl, stApp_init_right]
  | cons x xs ih =>
    intro st
    simp only [List.foldl_cons]
    rw [ih (f st x), hf st x, stApp_assoc, ← ih (f initState x)]

/-- Trace of one product from the empty state: `(page, id)` iff it passes
the resume filter. -/
lemma processItem_init_processed (rp : Int) (rpid : Option Int)
    (upd : Int → Int → Option String) (page : Int) (pr : Product) :
    (processItem rp rpid upd page initState pr).processed
      = if resumeSkip page rp rpid pr.id then [] else [(page, pr.id)] := by
  unfold processItem
  by_cases h1 : resumeSkip page rp rpid pr.id = true
  · rw [if_pos h1, if_pos h1]
    rfl
  · rw [if_neg h1, if_neg h1]
    cases hm : findImageMeta pr with
    | none => simp [initState]
    | some m =>
      dsimp only
      by_cases h2 : (normalize_urls m.value).isEmpty = true
      · rw [if_pos h2]; simp [initState]
      · rw [if_neg h2]
        by_cases h3 : normalize_urls m.value
            = (normalize_urls m.value).map transform_image_url
        · rw [if_pos h3]; simp [initState]
        · rw [if_neg h3]
          cases hu : upd page pr.id <;> simp [initState]

/-- Saves of one product from the empty state: `(page, some id)` iff it
reaches a successful update call. -/
lemma processItem_init_saves (rp : Int) (rpid : Option Int)
    (upd : Int → Int → Option String) (page : Int) (pr : Product) :
    (processItem rp rpid upd page initState pr).saves
      = if itemSaved rp rpid upd page pr then [(page, some pr.id)] else [] := by
  unfold processItem itemSaved
  by_cases h1 : resumeSkip page rp rpid pr.id = true
  · rw [if_pos h1]
    simp [h1, initState]
  · rw [if_neg h1]
    have h1' : resumeSkip page rp rpid pr.id = false := by
      simpa [Bool.not_eq_true] using h1
    cases hm : findImageMeta pr with
    | none => simp [h1', initState]
    | some m =>
      dsimp only
      by_cases h2 : (normalize_urls m.value).isEmpty = true
      · rw [if_pos h2]
        simp [h1', h2, initState]
      · rw [if_neg h2]
        have h2' : (normalize_urls m.value).isEmpty = false := by
          simpa [Bool.not_eq_true] using h2
        by_cases h3 : normalize_urls m.value
            = (normalize_urls m.value).map transform_image_url
        · rw [if_pos h3]
          simp [h1', h2', ← h3, initState]
        · rw [if_neg h3]
          cases hu : upd page pr.id with
          | none => simp [h1', h2', h3, hu, initState]
          | some e => simp [h1', h2', h3, hu, initState]

/-- The item fold over one page's products, from the empty state: its
trace is the filtered, tagged product list. -/
lemma foldl_items_processed (rp : Int) (rpid : Option Int)
    (upd : Int → Int → Option String) (page : Int) (l : List Product) :
    (l.foldl (processItem rp rpid upd page) initState).processed
      = (l.filter (fun pr => !resumeSkip page rp rpid pr.id)).map
          (fun pr => (page, pr.id)) := by
  induction l with
  | nil => rfl
  | cons pr l ih =>
    rw [List.foldl_cons, foldl_delta _ (processItem_delta rp rpid upd page)]
    show (stApp _ _).processed = _
    simp only [stApp]
    rw [processItem_init_processed, ih, List.filter_cons]
    by_cases h : resumeSkip page rp rpid pr.id = true
    · simp [h]
    · have h' : resumeSkip page rp rpid pr.id = false := by
        simpa [Bool.not_eq_true] using h
      simp [h']

/-- The item fold over one page's products, from the empty state: its
saves are the successfully updated products, tagged with the page. -/
lemma foldl_items_saves (rp : Int) (rpid : Option Int)
    (upd : Int → Int → Option String) (page : Int) (l : List Product) :
    (l.foldl (processItem rp rpid upd page) initState).saves
      = (l.filter (itemSaved rp rpid upd page)).map (fun pr => (page, some pr.id)) := by
  induction l with
  | nil => rfl
  | cons pr l ih =>
    rw [List.foldl_cons, foldl_delta _ (processItem_delta rp rpid upd page)]
    show (stApp _ _).saves = _
    simp only [stApp]
    rw [processItem_init_saves, ih, List.filter_cons]
    by_cases h : itemSaved rp rpid upd page pr = true
    · simp [h]
    · have h' : itemSaved rp rpid upd page pr = false := by
        simpa [Bool.not_eq_true] using h
      simp [h']

/-- `processPage` only appends to the state it is given. -/
lemma processPage_delta (rp : Int) (rpid : Option Int) (fetch : Int → FetchResult)
    (upd : Int → Int → Option String) (st : RunState) (page : Int) :
    processPage rp rpid fetch upd st page
      = stApp st (processPage rp rpid fetch upd initState page) := by
  unfold processPage
  cases hf : fetch page with
  | err e => cases st; simp [stApp, initState]
  | ok products =>
    dsimp only
    by_cases he : products.isEmpty = true
    · rw [if_pos he, if_pos he]
      cases st; simp [stApp, initState]
    · rw [if_neg he, if_neg he]
      rw [foldl_delta _ (processItem_delta rp rpid upd page) products st]
      generalize products.foldl (processItem rp rpid upd page) initState = F
      cases st; cases F
      simp [stApp, List.append_assoc]

/-- One page from the empty state: its trace is `pageProcessed`. -/
lemma processPage_init_processed (rp : Int) (rpid : Option Int)
    (fetch : Int → FetchResult) (upd : Int → Int → Option String) (page : Int) :
    (processPage rp rpid fetch upd initState page).processed
      = pageProcessed rp rpid fetch page := by
  unfold processPage pageProcessed pageProducts
  cases hf : fetch page with
  | err e => simp [initState]
  | ok products =>
    dsimp only
    by_cases he : products.isEmpty = true
    · rw [if_pos he]
      have hnil : products = [] := by simpa using he
      subst hnil
      simp [initState]
    · rw [if_neg he]
      exact foldl_items_processed rp rpid upd page products

/-- One page from the empty state: its saves are `pageSaves`. -/
lemma processPage_init_saves (rp : Int) (rpid : Option Int)
    (fetch : Int → FetchResult) (upd : Int → Int → Option String) (page : Int) :
    (processPage rp rpid fetch upd initState page).saves
      = pageSaves rp rpid fetch upd page := by
  unfold processPage pageSaves
  cases hf : fetch page with
  | err e => simp [initState]
  | ok products =>
    dsimp only
    by_cases he : products.isEmpty = true
    · rw [if_pos he, if_pos he]
      simp [initState]
    · rw [if_neg he, if_neg he]
      rw [foldl_items_saves rp rpid upd page products]

/-- The whole run's trace, page by page. -/
lemma run_processed (rp : Int) (rpid : Option Int) (endp : Int)
    (fetch : Int → FetchResult) (upd : Int → Int → Option String) :
    (process_batch_run rp rpid endp fetch upd).processed
      = (pythonRange rp (endp + 1)).flatMap (pageProcessed rp rpid fetch) := by
  unfold process_batch_run
  generalize pythonRange rp (endp + 1) = pages
  induction pages with
  | nil => rfl
  | cons p ps ih =>
    rw [List.foldl_cons, foldl_delta _ (processPage_delta rp rpid fetch upd)]
    show (stApp _ _).processed = _
    simp only [stApp]
    rw [processPage_init_processed, ih, List.flatMap_cons]

/-- A `filterMap` whose function is an if-then-some is a `map` over a
`filter`. -/
lemma filterMap_if_eq_map_filter {α β : Type} (c : α → Prop) [DecidablePred c]
    (g : α → β) (l : List α) :
    l.filterMap (fun x => if c x then some (g x) else Option.none)
      = (l.filter (fun x => decide (c x))).map g := by
  induction l with
  | nil => rfl
  | cons x xs ih =>
    by_cases h : c x <;> simp [List.filterMap_cons, List.filter_cons, h, ih]

/-- The whole run's saves, page by page. -/
lemma run_saves (rp : Int) (rpid : Option Int) (endp : Int)
    (fetch : Int → FetchResult) (upd : Int → Int → Option String) :
    (process_batch_run rp rpid endp fetch upd).saves
      = (pythonRange rp (endp + 1)).flatMap (pageSaves rp rpid fetch upd) := by
  unfold process_batch_run
  generalize pythonRange rp (endp + 1) = pages
  induction pages with
  | nil => rfl
  | cons p ps ih =>
    rw [List.foldl_cons, foldl_delta _ (processPage_delta rp rpid fetch upd)]
    show (stApp _ _).saves = _
    simp only [stApp]
    rw [processPage_init_saves, ih, List.flatMap_cons]

/-- C4: when the partial-update call for a product fails, the driver
appends a FAILED log record carrying the error detail after the UPDATED
rows, records no checkpoint save for that product, and the page loop
simply continues with the remaining products. -/
theorem update_failure_no_save_and_continue
    (rp : Int) (rpid : Option Int) (upd : Int → Int → Option String) (page : Int)
    (st : RunState) (pr : Product) (m : MetaEntry) (e : String)
    (hskip : resumeSkip page rp rpid pr.id = false)
    (hmeta : findImageMeta pr = some m)
    (hurls : (normalize_urls m.value).isEmpty = false)
    (hchanged : normalize_urls m.value ≠ (normalize_urls m.value).map transform_image_url)
    (hupd : upd page pr.id = some e) :
    (processItem rp rpid upd page st pr).saves = st.saves ∧
    (processItem rp rpid upd page st pr).rows
      = st.rows
        ++ (((normalize_urls m.value).zip
              ((normalize_urls m.value).map transform_image_url)).filterMap
             (fun p : String × String =>
               if p.1 ≠ p.2 then
                 some (⟨page, some pr.id, some pr.name, some p.1, some p.2,
                        RowStatus.updated⟩ : LogRow)
               else Option.none))
        ++ [(⟨page, some pr.id, some pr.name, Option.none, Option.none,
              RowStatus.failed e⟩ : LogRow)] ∧
    ∀ l1 l2 : List Product,
      (l1 ++ pr :: l2).foldl (processItem rp rpid upd page) st
        = l2.foldl (processItem rp rpid upd page)
            (processItem rp rpid upd page (l1.foldl (processItem rp rpid upd page) st) pr) := by
  have hstep : ∀ (st' : RunState), processItem rp rpid upd page st' pr
      = { st' with
          total_checked := st'.total_checked + 1,
          processed := st'.processed ++ [(page, pr.id)],
          total_updated := st'.total_updated + 1,
          rows := (st'.rows
            ++ (((normalize_urls m.value).zip
                  ((normalize_urls m.value).map transform_image_url)).filterMap
                 (fun p : String × String =>
                   if p.1 ≠ p.2 then
                     some (⟨page, some pr.id, some pr.name, some p.1, some p.2,
                            RowStatus.updated⟩ : LogRow)
                   else Option.none)))
            ++ [(⟨page, some pr.id, some pr.name, Option.none, Option.none,
                  RowStatus.failed e⟩ : LogRow)] } := by
    intro st'
    unfold processItem
    rw [if_neg (by simp [hskip]), hmeta]
    dsimp only
    rw [if_neg (by simp [hurls]), if_neg hchanged, hupd]
  refine ⟨by rw [hstep st], ?_, ?_⟩
  · rw [hstep st]
  · intro l1 l2
    rw [List.foldl_append, List.foldl_cons]

/-- Witness for C4: a failing PUT on product 42 leaves the saves empty. -/
theorem update_failure_no_save_and_continue_witness :
    (processItem 1 Option.none witUpdFail 1 initState (mkProd 42)).saves
      = initState.saves :=
  (update_failure_no_save_and_continue 1 Option.none witUpdFail 1 initState (mkProd 42)
    ⟨"product_images_url", PyValue.vStr "https://static.recar.lt/images/a.jpg"⟩ "HTTP 500"
    (by decide) rfl (by decide) (by decide) rfl).1

/-- C10: for a product whose transformed URL sequence differs from its
normalized input, the updated counter is incremented and one UPDATED log
row per changed position is appended before the update call's outcome is
consulted — so these rows (and the increment) happen whether the PUT
succeeds or fails, with the FAILED row merely appended after them. -/
theorem updated_rows_precede_update_call
    (rp : Int) (rpid : Option Int) (upd : Int → Int → Option String) (page : Int)
    (st : RunState) (pr : Product) (m : MetaEntry)
    (hskip : resumeSkip page rp rpid pr.id = false)
    (hmeta : findImageMeta pr = some m)
    (hurls : (normalize_urls m.value).isEmpty = false)
    (hchanged : normalize_urls m.value ≠ (normalize_urls m.value).map transform_image_url) :
    (processItem rp rpid upd page st pr).total_updated = st.total_updated + 1 ∧
    (processItem rp rpid upd page st pr).rows
      = st.rows
        ++ (((normalize_urls m.value).zip
              ((normalize_urls m.value).map transform_image_url)).filter
             (fun p : String × String => decide (p.1 ≠ p.2))).map
            (fun p : String × String =>
              (⟨page, some pr.id, some pr.name, some p.1, some p.2,
                RowStatus.updated⟩ : LogRow))
        ++ (match upd page pr.id with
            | Option.none => []
            | some e => [(⟨page, some pr.id, some pr.name, Option.none, Option.none,
                RowStatus.failed e⟩ : LogRow)]) := by
  have hmapfilter := filterMap_if_eq_map_filter
    (fun p : String × String => p.1 ≠ p.2)
    (fun p : String × String =>
      (⟨page, some pr.id, some pr.name, some p.1, some p.2, RowStatus.updated⟩ : LogRow))
    ((normalize_urls m.value).zip ((normalize_urls m.value).map transform_image_url))
  cases hu : upd page pr.id with
  | none =>
    have hstep : processItem rp rpid upd page st pr
        = { st with
            total_checked := st.total_checked + 1,
            processed := st.processed ++ [(page, pr.id)],
            total_updated := st.total_updated + 1,
            rows := st.rows
              ++ (((normalize_urls m.value).zip
                    ((normalize_urls m.value).map transform_image_url)).filterMap
                   (fun p : String × String =>
                     if p.1 ≠ p.2 then
                       some (⟨page, some pr.id, some pr.name, some p.1, some p.2,
                              RowStatus.updated⟩ : LogRow)
                     else Option.none)),
            saves := st.saves ++ [(page, some pr.id)] } := by
      unfold processItem
      rw [if_neg (by simp [hskip]), hmeta]
      dsimp only
      rw [if_neg (by simp [hurls]), if_neg hchanged, hu]
    rw [hstep]
    exact ⟨rfl, by rw [hmapfilter]; simp⟩
  | some e =>
    have hstep : processItem rp rpid upd page st pr
        = { st with
            total_checked := st.total_checked + 1,
            processed := st.processed ++ [(page, pr.id)],
            total_updated := st.total_updated + 1,
            rows := (st.rows
              ++ (((normalize_urls m.value).zip
                    ((normalize_urls m.value).map transform_image_url)).filterMap
                   (fun p : String × String =>
                     if p.1 ≠ p.2 then
                       some (⟨page, some pr.id, some pr.name, some p.1, some p.2,
                              RowStatus.updated⟩ : LogRow)
                     else Option.none)))
              ++ [(⟨page, some pr.id, some pr.name, Option.none, Option.none,
                    RowStatus.failed e⟩ : LogRow)] } := by
      unfold processItem
      rw [if_neg (by simp [hskip]), hmeta]
      dsimp only
      rw [if_neg (by simp [hurls]), if_neg hchanged, hu]
    rw [hstep]
    exact ⟨rfl, by rw [hmapfilter]⟩

/-- Witness for C10: a product with a failing PUT still increments the
updated counter. -/
theorem updated_rows_precede_update_call_witness :
    (processItem 1 Option.none witUpdFail 1 initState (mkProd 7)).total_updated
      = initState.total_updated + 1 :=
  (updated_rows_precede_update_call 1 Option.none witUpdFail 1 initState (mkProd 7)
    ⟨"product_images_url", PyValue.vStr "https://static.recar.lt/images/a.jpg"⟩
    (by decide) rfl (by decide) (by decide)).1

/-- With a truthy (non-zero) checkpoint id, *not* being resume-skipped is
exactly not being on the resume page with id at most the checkpoint id. -/
lemma resumeSkip_not_iff (p P i X : Int) (hX : X ≠ 0) :
    (!resumeSkip p P (some X) i) = decide (¬(p = P ∧ i ≤ X)) := by
  by_cases h1 : p = P <;> by_cases h2 : i ≤ X <;>
    simp [resumeSkip, hX, h1, h2]

/-- `pythonRange` has no duplicates. -/
lemma pythonRange_nodup (a b : Int) : (pythonRange a b).Nodup := by
  unfold pythonRange
  refine (List.nodup_range _).map ?_
  intro i j hij
  simpa using hij

/-- `pythonRange` is strictly increasing. -/
lemma pythonRange_pairwise_lt (a b : Int) :
    (pythonRange a b).Pairwise (· < ·) := by
  unfold pythonRange
  refine (List.pairwise_map).mpr ?_
  exact (List.pairwise_lt_range _).imp (fun h => by omega)

/-- Tagging a filtered product list with a page keeps it duplicate-free
when the page's ids are duplicate-free. -/
lemma nodup_tagged_block (p : Int) (l : List Product) (c : Product → Bool)
    (h : (l.map Product.id).Nodup) :
    ((l.filter c).map (fun pr => (p, pr.id))).Nodup := by
  have hsub : List.Sublist ((l.filter c).map Product.id) (l.map Product.id) :=
    (List.filter_sublist l).map Product.id
  have h2 : ((l.filter c).map Product.id).Nodup := h.sublist hsub
  have hmm : (l.filter c).map (fun pr => (p, pr.id))
      = ((l.filter c).map Product.id).map (fun i => (p, i)) := by
    simp [List.map_map]
  rw [hmm]
  exact h2.map (fun a b hab => by simpa using hab)

/-- Blocks tagged with pairwise-distinct pages concatenate without
duplicates. -/
lemma nodup_flatMap_tagged {β : Type} (pages : List Int) (f : Int → List (Int × β))
    (hfst : ∀ p x, x ∈ f p → x.1 = p)
    (hnd : ∀ p, (f p).Nodup)
    (hp : pages.Nodup) : (pages.flatMap f).Nodup := by
  induction pages with
  | nil => simp
  | cons p rest ih =>
    rw [List.flatMap_cons]
    rcases List.nodup_cons.mp hp with ⟨hpn, htail⟩
    refine (hnd p).append (ih htail) ?_
    intro x hx1 hx2
    rcases List.mem_flatMap.mp hx2 with ⟨q, hq, hxq⟩
    have h1 : x.1 = p := hfst p x hx1
    have h2 : x.1 = q := hfst q x hxq
    exact hpn (by rw [← h1.symm.trans h2] at hq; exact hq)

/-- C1: resuming from checkpoint `(P, X)` with `X > 0`, the run's trace of
processed items is exactly: for each page from `P` to the end page, the
fetched products except those on page `P` with id ≤ `X`, in order — and,
when each page's ids are duplicate-free, every such item appears exactly
once (no duplicates in the trace). -/
theorem resume_filter_processes_exactly
    (P X endp : Int) (hX : 0 < X) (fetch : Int → FetchResult)
    (upd : Int → Int → Option String) :
    (process_batch_run P (some X) endp fetch upd).processed
      = (pythonRange P (endp + 1)).flatMap (fun p =>
          ((pageProducts fetch p).filter
            (fun pr => decide (¬(p = P ∧ pr.id ≤ X)))).map (fun pr => (p, pr.id))) ∧
    ((∀ p : Int, ((pageProducts fetch p).map Product.id).Nodup) →
      (process_batch_run P (some X) endp fetch upd).processed.Nodup) ∧
    (∀ (file : Option String) (sp : Int),
      computeResume (load_checkpoint file) sp
          = Except.ok (PyValue.vInt P, PyValue.vInt X) →
      process_batch file sp endp fetch upd
        = Except.ok (process_batch_run P (some X) endp fetch upd)) := by
  have hX' : X ≠ 0 := by omega
  have heq : (process_batch_run P (some X) endp fetch upd).processed
      = (pythonRange P (endp + 1)).flatMap (fun p =>
          ((pageProducts fetch p).filter
            (fun pr => decide (¬(p = P ∧ pr.id ≤ X)))).map (fun pr => (p, pr.id))) := by
    rw [run_processed]
    apply List.flatMap_congr
    intro p hp
    unfold pageProcessed
    congr 1
    apply List.filter_congr
    intro pr hpr
    exact resumeSkip_not_iff p P pr.id X hX'
  refine ⟨heq, fun hnd => ?_, fun file sp hres => ?_⟩
  · rw [heq]
    apply nodup_flatMap_tagged
    · intro p x hx
      rcases List.mem_map.mp hx with ⟨pr, hpr, rfl⟩
      rfl
    · intro p
      exact nodup_tagged_block p (pageProducts fetch p) _ (hnd p)
    · exact pythonRange_nodup P (endp + 1)
  · unfold process_batch
    rw [hres]

/-- Witness for C1: resuming from `(2, 3)` over pages 2–3 yields a
duplicate-free trace. -/
theorem resume_filter_processes_exactly_witness :
    (process_batch_run 2 (some 3) 3 witFetch1 witUpdOk).processed.Nodup :=
  (resume_filter_processes_exactly 2 3 3 (by decide) witFetch1 witUpdOk).2.1 (by
    intro p
    unfold pageProducts witFetch1
    by_cases h2 : (p == 2) = true
    · rw [if_pos h2]; decide
    · rw [if_neg h2]
      by_cases h3 : (p == 3) = true
      · rw [if_pos h3]; decide
      · rw [if_neg h3]; decide)

/-- Chain blocks tagged with strictly increasing pages concatenate into a
chain. -/
lemma chain'_flatMap_tagged (pages : List Int) (f : Int → List (Int × Option Int))
    (hfst : ∀ p x, x ∈ f p → x.1 = p)
    (hblock : ∀ p, List.Chain' cpLe (f p))
    (hp : List.Pairwise (· < ·) pages) :
    List.Chain' cpLe (pages.flatMap f) := by
  induction pages with
  | nil => simp
  | cons p rest ih =>
    rw [List.flatMap_cons]
    rcases List.pairwise_cons.mp hp with ⟨hlt, htail⟩
    apply List.Chain'.append (hblock p) (ih htail)
    intro x hx y hy
    have hx1 : x.1 = p := hfst p x (List.mem_of_getLast?_eq_some hx)
    rcases List.mem_flatMap.mp (List.mem_of_mem_head? hy) with ⟨q, hq, hyq⟩
    have hy1 : y.1 = q := hfst q y hyq
    have hpq : p < q := hlt q hq
    simp [cpLe, cpLeB, hx1, hy1, hpq]

/-- C3 (counterexample): the sequence of saved checkpoints of a successful
run is *not* always lexicographically monotone.  When the API returns a
page's products in descending id order, the per-item saves descend: page 1
returning ids `[5, 3]` saves `(1, 5)`, then `(1, 3)`, then `(1, –)`. -/
theorem checkpoint_saves_not_monotone :
    ¬ List.Chain' cpLe ((process_batch_run 1 Option.none 1 witFetchDesc witUpdOk).saves) := by
  intro h
  have hs : (process_batch_run 1 Option.none 1 witFetchDesc witUpdOk).saves
      = [(1, some 5), (1, some 3), (1, Option.none)] := by decide
  rw [hs, List.chain'_cons] at h
  exact absurd h.1 (by decide)

/-- C3 (amended): if every fetched page lists its products in ascending id
order (the spec's stated assumption about the source API), then across a
single run the saved checkpoints are lexicographically monotone, the
page-completion save (no item id) ordering above the per-item saves of its
page. -/
theorem checkpoint_saves_monotone
    (P endp : Int) (rpid : Option Int) (fetch : Int → FetchResult)
    (upd : Int → Int → Option String)
    (hasc : ∀ (p : Int) (l : List Product), fetch p = FetchResult.ok l →
      (l.map Product.id).Pairwise (· ≤ ·)) :
    List.Chain' cpLe ((process_batch_run P rpid endp fetch upd).saves) := by
  rw [run_saves]
  apply chain'_flatMap_tagged
  · intro p x hx
    unfold pageSaves at hx
    cases hf : fetch p with
    | err e => rw [hf] at hx; simp at hx
    | ok l =>
      rw [hf] at hx
      dsimp only at hx
      by_cases he : l.isEmpty = true
      · rw [if_pos he] at hx; simp at hx
      · rw [if_neg he] at hx
        rcases List.mem_append.mp hx with hx | hx
        · rcases List.mem_map.mp hx with ⟨pr, hpr, rfl⟩
          rfl
        · have : x = (p, Option.none) := by simpa using hx
          rw [this]
  · intro p
    unfold pageSaves
    cases hf : fetch p with
    | err e => simp
    | ok l =>
      dsimp only
      by_cases he : l.isEmpty = true
      · simp [he]
      · rw [if_neg he]
        apply List.Chain'.append
        · rw [List.chain'_map]
          apply List.Pairwise.chain'
          have hp1 : (l.map Product.id).Pairwise (· ≤ ·) := hasc p l hf
          have hp2 : l.Pairwise (fun a b => a.id ≤ b.id) := List.pairwise_map.mp hp1
          have hp3 : (l.filter (itemSaved P rpid upd p)).Pairwise
              (fun a b => a.id ≤ b.id) :=
            List.Pairwise.sublist (List.filter_sublist l) hp2
          exact hp3.imp (fun hab => by simp [cpLe, cpLeB, hab])
        · simp
        · intro x hx y hy
          have hy' : y = (p, Option.none) := by
            have hym := List.mem_of_mem_head? hy
            simpa using hym
          have hx' := List.mem_of_getLast?_eq_some hx
          rcases List.mem_map.mp hx' with ⟨pr, hpr, rfl⟩
          rw [hy']
          simp [cpLe, cpLeB]
  · exact pythonRange_pairwise_lt P (endp + 1)

/-- Witness for the amended C3: ascending pages 2–3 yield a monotone save
sequence. -/
theorem checkpoint_saves_monotone_witness :
    List.Chain' cpLe ((process_batch_run 2 Option.none 3 witFetch1 witUpdOk).saves) :=
  checkpoint_saves_monotone 2 3 Option.none witFetch1 witUpdOk (by
    intro p l hf
    unfold witFetch1 at hf
    by_cases h2 : (p == 2) = true
    · rw [if_pos h2] at hf
      cases hf
      decide
    · rw [if_neg h2] at hf
      by_cases h3 : (p == 3) = true
      · rw [if_pos h3] at hf
        cases hf
        decide
      · rw [if_neg h3] at hf
        cases hf)
